import Mathlib

/-!
Shallow embedding of the `riskengine` Uniswap-v3 liquidity-risk toolkit
(modules `univ3_math.py`, `univ3_depth.py`, `univ3_execution.py`,
`univ3_tail.py`, `univ3_snapshot.py`), together with proofs of the numeric
contracts stated in the repository's specification.

Conventions of the embedding:
- Python floats are modelled as exact rationals (`ℚ`) where the code is pure
  arithmetic, and as real numbers (`ℝ`) where logarithms, square roots and
  exponentials occur.
- pandas dataframes are modelled as lists of rows (structures), `sort_values`
  as `List.insertionSort`, `cumsum` as a list of running partial sums, and
  `idxmin` as the index of the first minimal element.
- `numpy.random.default_rng(seed).standard_normal` is modelled as an
  abstract draw function `ℕ → ℕ → ℕ → ℝ` of the seed, path index and step
  index: the generator is a deterministic function of the seed, and none of
  the proved properties depend on the values drawn.
- Functions that raise exceptions are modelled as `Option`/`Except` values.
-/

namespace RiskEngine

/-! ### univ3_math.py -/

/-- `tick_to_price`: `price = 1.0001 ** tick` (Uniswap v3 convention),
computed exactly over `ℚ`. -/
def tick_to_price (tick : ℤ) : ℚ :=
  (1.0001 : ℚ) ^ tick

/-- `price_to_tick`: raises `ValueError` on `price <= 0` (modelled as `none`),
otherwise `round(math.log(price, 1.0001))`. -/
noncomputable def price_to_tick (price : ℝ) : Option ℤ :=
  if price ≤ 0 then none
  else some (round (Real.log price / Real.log 1.0001))

/-- `pct_move_to_price`: `price0 * (1.0 + pct_move)`. -/
def pct_move_to_price (price0 pct_move : ℚ) : ℚ :=
  price0 * (1 + pct_move)

/-! ### univ3_depth.py -/

/-- One row of the active-liquidity profile dataframe
(columns `tick`, `price`, `active_liquidity`). -/
structure ProfileRow where
  tick : ℤ
  price : ℚ
  active_liquidity : ℚ
deriving DecidableEq, Inhabited

/-- Comparison used by `sort_values("tick")` on the ticks dataframe, whose
rows are `(tick, liquidity_net)` pairs. -/
def tickLE (a b : ℤ × ℚ) : Prop :=
  a.1 ≤ b.1

instance : DecidableRel tickLE := fun a b => inferInstanceAs (Decidable (a.1 ≤ b.1))

/-- The ticks dataframe after `sort_values("tick")` and restriction to the
window `[current_tick - tick_window, current_tick + tick_window]`. -/
def windowTicks (ticks : List (ℤ × ℚ)) (current_tick tick_window : ℤ) :
    List (ℤ × ℚ) :=
  (ticks.insertionSort tickLE).filter fun r =>
    decide (current_tick - tick_window ≤ r.1) && decide (r.1 ≤ current_tick + tick_window)

/-- pandas `Series.cumsum`: the list of running partial sums. -/
def cumsum : List ℚ → List ℚ
  | [] => []
  | x :: xs => x :: (cumsum xs).map (fun c => x + c)

/-- pandas `Series.idxmin` on a positional index: the position of the first
minimal element (0 on the empty list). -/
def idxmin : List ℤ → ℕ
  | [] => 0
  | [_] => 0
  | x :: y :: xs =>
    if x ≤ (y :: xs).getD (idxmin (y :: xs)) 0 then 0 else idxmin (y :: xs) + 1

/-- `idx0 = (df["tick"] - current_tick).abs().idxmin()`: position of the row
of the windowed dataframe whose tick is nearest to `current_tick`. -/
def anchorIdx (df : List (ℤ × ℚ)) (current_tick : ℤ) : ℕ :=
  idxmin (df.map fun r => |r.1 - current_tick|)

/-- `build_active_liquidity_profile`: sort by tick, restrict to the window,
attach prices, cumulatively sum `liquidity_net`, subtract the cumulative sum
at the row nearest to `current_tick`, and take absolute values. -/
def build_active_liquidity_profile (ticks : List (ℤ × ℚ))
    (current_tick tick_window : ℤ) : List ProfileRow :=
  let df := windowTicks ticks current_tick tick_window
  let cums := cumsum (df.map Prod.snd)
  let anchor := cums.getD (anchorIdx df current_tick) 0
  (df.zip cums).map fun rc =>
    { tick := rc.1.1, price := tick_to_price rc.1.1, active_liquidity := |rc.2 - anchor| }

example :
    (build_active_liquidity_profile [(3, 7), (1, 2), (2, -5)] 2 10).map
      (fun r => (r.tick, r.active_liquidity)) = [(1, 5), (2, 0), (3, 7)] := by
  norm_num [build_active_liquidity_profile, windowTicks, cumsum, anchorIdx, idxmin,
    List.insertionSort, List.orderedInsert, tickLE]

example : idxmin [5, 2, 2, 9] = 1 := by decide

example : cumsum [1, 2, 3] = [1, 3, 6] := by norm_num [cumsum]

/-- One row of the depth-curve dataframe
(columns `pct_move`, `price_target`, `depth_proxy`). -/
structure DepthRow where
  pct_move : ℚ
  price_target : ℚ
  depth_proxy : ℚ
deriving DecidableEq, Inhabited

/-- `depth_curve_from_profile`: one output row per percentage move; the depth
proxy sums `active_liquidity` over the profile rows whose price lies in the
closed interval between the current and the moved price. -/
def depth_curve_from_profile (profile : List ProfileRow) (current_price : ℚ)
    (pct_moves : List ℚ) : List DepthRow :=
  pct_moves.map fun pm =>
    let price_target := current_price * (1 + pm)
    let p_min := min current_price price_target
    let p_max := max current_price price_target
    { pct_move := pm, price_target := price_target,
      depth_proxy :=
        ((profile.filter fun r => decide (p_min ≤ r.price) && decide (r.price ≤ p_max)).map
          (fun r => r.active_liquidity)).sum }

/-! ### univ3_execution.py -/

/-- One row of the slippage table (columns `trade_size`, `implied_slippage`). -/
structure SlipRow where
  trade_size : ℚ
  implied_slippage : ℚ
deriving DecidableEq, Inhabited

/-- The additive fudge constant `eps = 1e-12` of `slippage_from_depth_proxy`. -/
def slipEps : ℚ := 1e-12

/-- Comparison used by `sort_values("pct_move")` on a depth curve. -/
def pctMoveLE (a b : DepthRow) : Prop :=
  a.pct_move ≤ b.pct_move

instance : DecidableRel pctMoveLE := fun a b =>
  inferInstanceAs (Decidable (a.pct_move ≤ b.pct_move))

/-- The representative depth level of `slippage_from_depth_proxy`:
`depth_curve.sort_values("pct_move").iloc[len(depth_curve) // 2][depth_col]`. -/
def depthLevel (depth_curve : List DepthRow) : ℚ :=
  ((depth_curve.insertionSort pctMoveLE).getD (depth_curve.length / 2) default).depth_proxy

/-- The functional form of the slippage heuristic:
`slip = k * trade_size / (depth_level + eps)`. -/
def impliedSlippage (k depth_level trade_size : ℚ) : ℚ :=
  k * trade_size / (depth_level + slipEps)

/-- `slippage_from_depth_proxy`: map each trade size to the implied slippage
at the representative depth level of the curve. -/
def slippage_from_depth_proxy (depth_curve : List DepthRow) (trade_sizes : List ℚ)
    (k : ℚ) : List SlipRow :=
  trade_sizes.map fun q =>
    { trade_size := q, implied_slippage := impliedSlippage k (depthLevel depth_curve) q }

/-! ### univ3_tail.py: out-of-range probability -/

/-- `out_of_range_probability`: the fraction of simulated paths that leave
`[price0*(1-lp_range_pct), price0*(1+lp_range_pct)]` at any step.
`numpy` would return `NaN` on an empty path array (mean of an empty vector);
the theorems below therefore only engage nonempty path lists. -/
def out_of_range_probability (price_paths : List (List ℚ)) (price0 lp_range_pct : ℚ) : ℚ :=
  let low := price0 * (1 - lp_range_pct)
  let high := price0 * (1 + lp_range_pct)
  ((price_paths.countP fun path =>
      path.any fun x => decide (x < low) || decide (high < x)) : ℚ) /
    (price_paths.length : ℚ)

example :
    out_of_range_probability [[1, 2], [1, 1], [0, 1], [1, 1]] 1 (1/2) = 1/2 := by
  norm_num [out_of_range_probability, List.countP, List.countP.go]

/-! ### univ3_tail.py: tail slippage table -/

/-- `numpy.quantile` with the default linear interpolation method: on the
sorted sample, the value at fractional position `q * (n - 1)`. -/
def quantile (xs : List ℚ) (q : ℚ) : ℚ :=
  let s := xs.insertionSort (· ≤ ·)
  let h : ℚ := q * ((xs.length : ℚ) - 1)
  let i : ℕ := (⌊h⌋).toNat
  let lo := s.getD i 0
  let hi := s.getD (min (i + 1) (xs.length - 1)) 0
  lo + (h - (i : ℚ)) * (hi - lo)

example : quantile [4, 1, 3, 2] (1/2) = 5/2 := by
  norm_num [quantile, List.insertionSort, List.orderedInsert]

example : quantile [7] (95/100) = 7 := by
  norm_num [quantile, List.insertionSort, List.orderedInsert]

/-- One row of the tail-slippage table (columns `sigma_annual`, `trade_size`,
`p95_slippage`, `p99_slippage`). -/
structure TailRow where
  sigma_annual : ℚ
  trade_size : ℚ
  p95_slippage : ℚ
  p99_slippage : ℚ
deriving DecidableEq, Inhabited

/-- `tail_slippage_table`: for every volatility regime and trade size, draw
`n_mc` Monte-Carlo samples from the caller-supplied slippage model and record
their 95% and 99% quantiles.  The sampled model
`slippage_model_func(sigma, trade_size, rng)` is abstracted as a function of
the regime, the trade size and the position in the seeded random stream. -/
def tail_slippage_table (slippage_model_func : ℚ → ℚ → ℕ → ℚ)
    (vol_regimes_annual trade_sizes : List ℚ) (n_mc : ℕ) : List TailRow :=
  vol_regimes_annual.flatMap fun sigma =>
    trade_sizes.map fun q =>
      let samples := (List.range n_mc).map (slippage_model_func sigma q)
      { sigma_annual := sigma, trade_size := q,
        p95_slippage := quantile samples (95/100),
        p99_slippage := quantile samples (99/100) }

/-! ### univ3_tail.py: GBM path simulation -/

/-- `simulate_price_paths_gbm`: zero-drift lognormal paths.  `normal` stands
for `np.random.default_rng(seed).standard_normal`, indexed by seed, path and
step; the increment matrix is scaled by `sigma_annual * sqrt(dt)`, cumulated
along each path (`List.scanl` prepends the zero column), and exponentiated. -/
noncomputable def simulate_price_paths_gbm (normal : ℕ → ℕ → ℕ → ℝ)
    (price0 sigma_annual : ℝ) (horizon_days steps_per_day n_paths seed : ℕ) :
    List (List ℝ) :=
  let dt : ℝ := 1 / (365 * (steps_per_day : ℝ))
  let n_steps := horizon_days * steps_per_day
  (List.range n_paths).map fun i =>
    let increments := (List.range n_steps).map fun k =>
      sigma_annual * Real.sqrt dt * normal seed i k
    let log_path := List.scanl (· + ·) 0 increments
    log_path.map fun x => price0 * Real.exp x

/-! ### univ3_snapshot.py -/

/-- A tick dataframe as stored in a snapshot: named columns of cells, where a
missing value (`NaN`) is `none`. -/
structure TicksDF where
  cols : List (String × List (Option ℚ))
deriving DecidableEq, Inhabited

/-- The column labels of a tick dataframe. -/
def TicksDF.names (df : TicksDF) : List String :=
  df.cols.map Prod.fst

/-- Look up a column by label (first match, as in pandas). -/
def TicksDF.col (df : TicksDF) (name : String) : List (Option ℚ) :=
  ((df.cols.find? fun c => c.1 == name).map Prod.snd).getD []

/-- The sidecar JSON metadata of a snapshot. -/
structure SnapshotMeta where
  pool_name : String
  fee_tier : String
  timestamp_utc : String
  current_tick : ℤ
  current_price : ℚ
deriving DecidableEq, Inhabited

/-- `UniV3Snapshot`: pool metadata plus the tick dataframe. -/
structure UniV3Snapshot where
  pool_name : String
  fee_tier : String
  timestamp_utc : String
  current_tick : ℤ
  current_price : ℚ
  ticks : TicksDF
deriving DecidableEq, Inhabited

/-- `UniV3Snapshot.validate`: `ValueError` (modelled as `Except.error`) when a
required column is absent or when either required column contains `NaN`. -/
def UniV3Snapshot.validate (snap : UniV3Snapshot) : Except String Unit :=
  if !(snap.ticks.names.contains "tick" && snap.ticks.names.contains "liquidity_net") then
    Except.error "Ticks dataframe missing columns"
  else if (snap.ticks.col "tick").any fun v => v.isNone then
    Except.error "Ticks dataframe contains NaN ticks."
  else if (snap.ticks.col "liquidity_net").any fun v => v.isNone then
    Except.error "Ticks dataframe contains NaN liquidity_net."
  else
    Except.ok ()

/-- `load_snapshot`: `FileNotFoundError` when either file is absent (`none`),
then construct the snapshot from the parsed metadata and tick table and run
`validate` on it before returning it. -/
def load_snapshot (meta : Option SnapshotMeta) (ticks : Option TicksDF) :
    Except String UniV3Snapshot :=
  match meta with
  | none => Except.error "Missing meta file"
  | some m =>
    match ticks with
    | none => Except.error "Missing ticks file"
    | some t =>
      let snap : UniV3Snapshot :=
        { pool_name := m.pool_name, fee_tier := m.fee_tier,
          timestamp_utc := m.timestamp_utc, current_tick := m.current_tick,
          current_price := m.current_price, ticks := t }
      match snap.validate with
      | Except.error e => Except.error e
      | Except.ok _ => Except.ok snap

example :
    (load_snapshot (some default)
      (some ⟨[("tick", [some 0]), ("liquidity_net", [some 1])]⟩)).isOk = true := by
  decide

example :
    (load_snapshot (some default)
      (some ⟨[("tick", [some 0, none]), ("liquidity_net", [some 1, some 2])]⟩)).isOk = false := by
  decide

/-! ### Helper lemmas -/

lemma getD_map_lt {α β : Type*} (f : α → β) (l : List α) {n : ℕ} (h : n < l.length)
    (d : β) (d' : α) : (l.map f).getD n d = f (l.getD n d') := by
  rw [List.getD_eq_getElem _ _ (by simpa using h), List.getElem_map,
    List.getD_eq_getElem _ _ h]

lemma length_cumsum (xs : List ℚ) : (cumsum xs).length = xs.length := by
  induction xs with
  | nil => rfl
  | cons x t ih => simp [cumsum, ih]

lemma getD_cumsum (xs : List ℚ) (j : ℕ) (hj : j < xs.length) :
    (cumsum xs).getD j 0 = (xs.take (j + 1)).sum := by
  induction xs generalizing j with
  | nil => simp at hj
  | cons x t ih =>
    cases j with
    | zero => simp [cumsum]
    | succ k =>
      have hk : k < t.length := by simpa using hj
      have hk' : k < (cumsum t).length := by rw [length_cumsum]; exact hk
      simp only [cumsum, List.getD_cons_succ]
      rw [getD_map_lt _ _ hk' _ 0, ih k hk]
      simp [List.take_succ_cons]

lemma idxmin_lt_length (xs : List ℤ) (h : xs ≠ []) : idxmin xs < xs.length := by
  induction xs with
  | nil => simp at h
  | cons x t ih =>
    cases t with
    | nil => simp [idxmin]
    | cons y u =>
      rw [idxmin]
      split
      · simp
      · have h' := ih (by simp)
        simpa using Nat.succ_lt_succ h'

lemma idxmin_le (xs : List ℤ) (j : ℕ) (hj : j < xs.length) :
    xs.getD (idxmin xs) 0 ≤ xs.getD j 0 := by
  induction xs generalizing j with
  | nil => simp at hj
  | cons x t ih =>
    cases t with
    | nil =>
      have : j = 0 := by simpa using Nat.lt_one_iff.mp (by simpa using hj)
      simp [idxmin, this]
    | cons y u =>
      rw [idxmin]
      split
      · next hle =>
        cases j with
        | zero => simp
        | succ k =>
          have hk : k < (y :: u).length := by simpa using hj
          simp only [List.getD_cons_zero, List.getD_cons_succ]
          exact hle.trans (ih k hk)
      · next hgt =>
        push_neg at hgt
        cases j with
        | zero => simpa using hgt.le
        | succ k =>
          have hk : k < (y :: u).length := by simpa using hj
          simpa using ih k hk

lemma windowTicks_ne_nil {ticks : List (ℤ × ℚ)} {current_tick tick_window : ℤ}
    (h : ∃ r ∈ ticks, current_tick - tick_window ≤ r.1 ∧ r.1 ≤ current_tick + tick_window) :
    windowTicks ticks current_tick tick_window ≠ [] := by
  obtain ⟨r, hr, h1, h2⟩ := h
  have hmem : r ∈ ticks.insertionSort tickLE :=
    (List.perm_insertionSort tickLE ticks).mem_iff.mpr hr
  have : r ∈ windowTicks ticks current_tick tick_window := by
    unfold windowTicks
    refine List.mem_filter.mpr ⟨hmem, ?_⟩
    simp [h1, h2]
  exact List.ne_nil_of_mem this

/-! ### Claim theorems -/

/-- C1.  For a ticks dataframe with at least one tick inside the window
around `current_tick`, `build_active_liquidity_profile` yields the row-wise
values `|cumulative sum up to the row - cumulative sum at the anchor row|`,
where the anchor row is one whose tick is nearest to `current_tick`; in
particular the anchor row's `active_liquidity` is exactly `0`. -/
theorem build_active_liquidity_profile_anchor
    (ticks : List (ℤ × ℚ)) (current_tick tick_window : ℤ)
    (h : ∃ r ∈ ticks, current_tick - tick_window ≤ r.1 ∧ r.1 ≤ current_tick + tick_window) :
    (((build_active_liquidity_profile ticks current_tick tick_window).getD
        (anchorIdx (windowTicks ticks current_tick tick_window) current_tick)
        default).active_liquidity = 0)
    ∧ (∀ j < (build_active_liquidity_profile ticks current_tick tick_window).length,
        ((build_active_liquidity_profile ticks current_tick tick_window).getD j
            default).active_liquidity =
          |(((windowTicks ticks current_tick tick_window).map Prod.snd).take (j + 1)).sum -
            (((windowTicks ticks current_tick tick_window).map Prod.snd).take
              (anchorIdx (windowTicks ticks current_tick tick_window) current_tick + 1)).sum|)
    ∧ (∀ j < (build_active_liquidity_profile ticks current_tick tick_window).length,
        |((build_active_liquidity_profile ticks current_tick tick_window).getD
            (anchorIdx (windowTicks ticks current_tick tick_window) current_tick)
            default).tick - current_tick| ≤
          |((build_active_liquidity_profile ticks current_tick tick_window).getD j
              default).tick - current_tick|) := by
  classical
  set df := windowTicks ticks current_tick tick_window with hdf_def
  have hdf : df ≠ [] := windowTicks_ne_nil h
  set j0 := anchorIdx df current_tick with hj0_def
  have hlen_pos : 0 < df.length := List.length_pos.mpr hdf
  have hj0 : j0 < df.length := by
    have := idxmin_lt_length (df.map fun r => |r.1 - current_tick|) (by simpa using hdf)
    simpa [anchorIdx, hj0_def] using this
  set liqs := df.map Prod.snd with hliqs_def
  have hliqs_len : liqs.length = df.length := by simp [hliqs_def]
  set cums := cumsum liqs with hcums_def
  have hcums_len : cums.length = df.length := by rw [hcums_def, length_cumsum, hliqs_len]
  have hprofile : build_active_liquidity_profile ticks current_tick tick_window =
      (df.zip cums).map fun rc =>
        ({ tick := rc.1.1, price := tick_to_price rc.1.1,
           active_liquidity := |rc.2 - cums.getD j0 0| } : ProfileRow) := by
    simp only [build_active_liquidity_profile, hdf_def, hliqs_def, hcums_def, hj0_def]
  have hplen : (build_active_liquidity_profile ticks current_tick tick_window).length
      = df.length := by
    rw [hprofile]
    simp [List.length_zip, hcums_len]
  have hrow : ∀ j, j < df.length →
      (build_active_liquidity_profile ticks current_tick tick_window).getD j default =
        { tick := (df.getD j default).1, price := tick_to_price (df.getD j default).1,
          active_liquidity := |cums.getD j 0 - cums.getD j0 0| } := by
    intro j hj
    have hjz : j < (df.zip cums).length := by simp [List.length_zip, hcums_len, hj]
    rw [hprofile, getD_map_lt _ _ hjz _ default]
    have hget : (df.zip cums).getD j default = (df.getD j default, cums.getD j 0) := by
      rw [List.getD_eq_getElem _ _ hjz, List.getElem_zip,
        List.getD_eq_getElem _ _ hj, List.getD_eq_getElem _ _ (by rw [hcums_len]; exact hj)]
    rw [hget]
  have hcum_take : ∀ j, j < df.length → cums.getD j 0 = (liqs.take (j + 1)).sum := by
    intro j hj
    exact getD_cumsum liqs j (by rwa [hliqs_len])
  refine ⟨?_, ?_, ?_⟩
  · rw [hrow j0 hj0]
    simp
  · intro j hj
    rw [hplen] at hj
    rw [hrow j hj, hcum_take j hj, hcum_take j0 hj0]
  · intro j hj
    rw [hplen] at hj
    rw [hrow j hj, hrow j0 hj0]
    have hds : ∀ i, i < df.length →
        (df.map fun r => |r.1 - current_tick|).getD i 0 = |(df.getD i default).1 - current_tick| := by
      intro i hi
      exact getD_map_lt _ _ hi _ default
    have key := idxmin_le (df.map fun r => |r.1 - current_tick|) j (by simpa using hj)
    rw [show idxmin (df.map fun r => |r.1 - current_tick|) = j0 from rfl] at key
    rw [hds j hj, hds j0 hj0] at key
    simpa using key

/-- Closed witness for C1 at a concrete three-row ticks dataframe. -/
theorem build_active_liquidity_profile_anchor_witness :
    (((build_active_liquidity_profile [(3, 7), (1, 2), (2, -5)] 2 10).getD
        (anchorIdx (windowTicks [(3, 7), (1, 2), (2, -5)] 2 10) 2)
        default).active_liquidity = 0) :=
  (build_active_liquidity_profile_anchor [(3, 7), (1, 2), (2, -5)] 2 10
    ⟨(1, 2), by decide, by decide, by decide⟩).1

lemma sum_map_filter_eq_sum_ite {α : Type*} (l : List α) (p : α → Bool) (f : α → ℚ) :
    ((l.filter p).map f).sum = (l.map fun x => if p x then f x else 0).sum := by
  induction l with
  | nil => rfl
  | cons x t ih =>
    by_cases h : p x <;> simp [List.filter_cons, h, ih]

/-- C6.  `depth_curve_from_profile` yields one row per percentage move; each
row carries `price_target = current_price * (1 + pct_move)` and a depth proxy
equal to the sum of `active_liquidity` over exactly the profile rows whose
price lies in the closed interval between the current and the target price. -/
theorem depth_curve_from_profile_spec (profile : List ProfileRow) (current_price : ℚ)
    (pct_moves : List ℚ) (j : ℕ) (hj : j < pct_moves.length) :
    (depth_curve_from_profile profile current_price pct_moves).length = pct_moves.length
    ∧ ((depth_curve_from_profile profile current_price pct_moves).getD j default).pct_move
        = pct_moves.getD j 0
    ∧ ((depth_curve_from_profile profile current_price pct_moves).getD j default).price_target
        = current_price * (1 + pct_moves.getD j 0)
    ∧ ((depth_curve_from_profile profile current_price pct_moves).getD j default).depth_proxy
        = (profile.map fun r =>
            if min current_price (current_price * (1 + pct_moves.getD j 0)) ≤ r.price ∧
                r.price ≤ max current_price (current_price * (1 + pct_moves.getD j 0)) then
              r.active_liquidity
            else 0).sum := by
  have hrow : (depth_curve_from_profile profile current_price pct_moves).getD j default =
      { pct_move := pct_moves.getD j 0,
        price_target := current_price * (1 + pct_moves.getD j 0),
        depth_proxy :=
          ((profile.filter fun r =>
              decide (min current_price (current_price * (1 + pct_moves.getD j 0)) ≤ r.price) &&
              decide (r.price ≤ max current_price (current_price * (1 + pct_moves.getD j 0)))).map
            (fun r => r.active_liquidity)).sum } := by
    rw [depth_curve_from_profile, getD_map_lt _ _ hj _ 0]
  refine ⟨by simp [depth_curve_from_profile], by rw [hrow], by rw [hrow], ?_⟩
  rw [hrow, sum_map_filter_eq_sum_ite]
  simp only [Bool.and_eq_true, decide_eq_true_eq]

/-- Closed witness for C6 at a concrete one-row profile and one move. -/
theorem depth_curve_from_profile_spec_witness :
    ((depth_curve_from_profile [⟨0, 1, 2⟩] 1 [1]).getD 0 default).price_target
      = 1 * (1 + ([(1 : ℚ)].getD 0 0)) :=
  (depth_curve_from_profile_spec [⟨0, 1, 2⟩] 1 [1] 0 (by decide)).2.2.1

/-- C7.  Each output row of `slippage_from_depth_proxy` carries
`implied_slippage = k * trade_size / (depth_level + eps)` at the depth level
of the middle row of the curve sorted by `pct_move`; the functional form is
strictly increasing in the trade size and strictly decreasing in the depth
level when `k`, the trade size and the depth levels are positive. -/
theorem slippage_from_depth_proxy_spec (depth_curve : List DepthRow)
    (trade_sizes : List ℚ) (k q q' d d' : ℚ) (j : ℕ) (hj : j < trade_sizes.length)
    (hk : 0 < k) (hq : 0 < q) (hqq' : q < q') (hd : 0 < d) (hdd' : d < d') :
    ((slippage_from_depth_proxy depth_curve trade_sizes k).getD j default).implied_slippage
        = k * trade_sizes.getD j 0 / (depthLevel depth_curve + slipEps)
    ∧ impliedSlippage k d q < impliedSlippage k d q'
    ∧ impliedSlippage k d' q < impliedSlippage k d q := by
  have heps : (0 : ℚ) < slipEps := by norm_num [slipEps]
  have hden : 0 < d + slipEps := by linarith
  have hden' : 0 < d' + slipEps := by linarith
  refine ⟨?_, ?_, ?_⟩
  · rw [slippage_from_depth_proxy, getD_map_lt _ _ hj _ 0]
    rfl
  · unfold impliedSlippage
    have hnum : k * q < k * q' := by nlinarith
    exact div_lt_div_of_pos_right hnum hden
  · unfold impliedSlippage
    exact div_lt_div_of_pos_left (by nlinarith) hden (by linarith)

/-- Closed witness for C7 at concrete curve, trade sizes and parameters. -/
theorem slippage_from_depth_proxy_spec_witness :
    impliedSlippage 1 2 1 < impliedSlippage 1 1 1 :=
  (slippage_from_depth_proxy_spec [⟨0, 1, 3⟩] [1] 1 1 2 1 2 0 (by decide)
    (by norm_num) (by norm_num) (by norm_num) (by norm_num) (by norm_num)).2.2

/-- C4, counterexample.  As stated — for every `price0` — the claim is false:
with the single constant path `[-1]` around `price0 = -1`, shrinking the band
parameter from `1` to `0` strictly lowers the breach probability from `1` to
`0`, so the probability is not non-decreasing as `lp_range_pct` decreases. -/
theorem out_of_range_probability_mono_cex :
    ¬ (out_of_range_probability [[-1]] (-1) 1 ≤ out_of_range_probability [[-1]] (-1) 0) := by
  norm_num [out_of_range_probability, List.countP, List.countP.go]

/-- C4, amended.  For a nonempty path array and nonnegative `price0`,
`out_of_range_probability` lies in `[0, 1]` and is monotonically
non-decreasing as `lp_range_pct` decreases. -/
theorem out_of_range_probability_bounds_mono (price_paths : List (List ℚ))
    (price0 r1 r2 : ℚ) (hne : price_paths ≠ []) (hp : 0 ≤ price0)
    (hr1 : 0 ≤ r1) (hr12 : r1 ≤ r2) :
    0 ≤ out_of_range_probability price_paths price0 r1
    ∧ out_of_range_probability price_paths price0 r1 ≤ 1
    ∧ out_of_range_probability price_paths price0 r2 ≤
        out_of_range_probability price_paths price0 r1 := by
  have hlen : (0 : ℚ) < (price_paths.length : ℚ) := by
    exact_mod_cast List.length_pos.mpr hne
  have hmono : ∀ path : List ℚ,
      (path.any fun x => decide (x < price0 * (1 - r2)) || decide (price0 * (1 + r2) < x)) = true →
      (path.any fun x => decide (x < price0 * (1 - r1)) || decide (price0 * (1 + r1) < x)) = true := by
    intro path hpath
    rw [List.any_eq_true] at hpath ⊢
    obtain ⟨x, hx, hbr⟩ := hpath
    refine ⟨x, hx, ?_⟩
    have hlow : price0 * (1 - r2) ≤ price0 * (1 - r1) :=
      mul_le_mul_of_nonneg_left (by linarith) hp
    have hhigh : price0 * (1 + r1) ≤ price0 * (1 + r2) :=
      mul_le_mul_of_nonneg_left (by linarith) hp
    simp only [Bool.or_eq_true, decide_eq_true_eq] at hbr ⊢
    rcases hbr with h | h
    · exact Or.inl (by linarith)
    · exact Or.inr (by linarith)
  have hcount : (price_paths.countP fun path =>
        path.any fun x => decide (x < price0 * (1 - r2)) || decide (price0 * (1 + r2) < x)) ≤
      price_paths.countP fun path =>
        path.any fun x => decide (x < price0 * (1 - r1)) || decide (price0 * (1 + r1) < x) :=
    List.countP_mono_left fun path _ => hmono path
  unfold out_of_range_probability
  refine ⟨by positivity, ?_, ?_⟩
  · rw [div_le_one hlen]
    exact_mod_cast List.countP_le_length _
  · exact (div_le_div_iff_of_pos_right hlen).mpr (by exact_mod_cast hcount)

/-- Closed witness for the amended C4 at a concrete path array. -/
theorem out_of_range_probability_bounds_mono_witness :
    0 ≤ out_of_range_probability [[1]] 1 0 :=
  (out_of_range_probability_bounds_mono [[1]] 1 0 0 (by decide) (by norm_num)
    (by norm_num) (by norm_num)).1

lemma sorted_getD_mono {s : List ℚ} (hs : s.Sorted (· ≤ ·)) {i j : ℕ} (hij : i ≤ j)
    (hj : j < s.length) : s.getD i 0 ≤ s.getD j 0 := by
  rcases Nat.lt_or_ge i j with hlt | hge
  · have hi : i < s.length := lt_trans hlt hj
    rw [List.getD_eq_getElem _ _ hi, List.getD_eq_getElem _ _ hj]
    exact List.pairwise_iff_getElem.mp hs i j hi hj hlt
  · rw [Nat.le_antisymm hij hge]

lemma quantile_eq (xs : List ℚ) (q : ℚ) :
    quantile xs q =
      (xs.insertionSort (· ≤ ·)).getD (⌊q * ((xs.length : ℚ) - 1)⌋.toNat) 0 +
        (q * ((xs.length : ℚ) - 1) - ((⌊q * ((xs.length : ℚ) - 1)⌋.toNat : ℕ) : ℚ)) *
          ((xs.insertionSort (· ≤ ·)).getD
              (min (⌊q * ((xs.length : ℚ) - 1)⌋.toNat + 1) (xs.length - 1)) 0 -
            (xs.insertionSort (· ≤ ·)).getD (⌊q * ((xs.length : ℚ) - 1)⌋.toNat) 0) := rfl

/-- `numpy.quantile` with linear interpolation is monotone in the quantile
level on a nonempty sample. -/
lemma quantile_le_quantile (xs : List ℚ) (hne : xs ≠ []) {q1 q2 : ℚ}
    (h0 : 0 ≤ q1) (h12 : q1 ≤ q2) (h1 : q2 ≤ 1) :
    quantile xs q1 ≤ quantile xs q2 := by
  rw [quantile_eq xs q1, quantile_eq xs q2]
  set s := xs.insertionSort (· ≤ ·) with hs_def
  have hs : s.Sorted (· ≤ ·) := List.sorted_insertionSort _ _
  set n := xs.length with hn_def
  have hn : 1 ≤ n := List.length_pos.mpr hne
  have hslen : s.length = n := List.length_insertionSort _ _
  have hnq : (1 : ℚ) ≤ (n : ℚ) := by exact_mod_cast hn
  set h₁ := q1 * ((n : ℚ) - 1) with hh1_def
  set h₂ := q2 * ((n : ℚ) - 1) with hh2_def
  have hn1 : (0 : ℚ) ≤ (n : ℚ) - 1 := by linarith
  have hh1_nonneg : 0 ≤ h₁ := mul_nonneg h0 hn1
  have hh2_nonneg : 0 ≤ h₂ := mul_nonneg (h0.trans h12) hn1
  have hh12 : h₁ ≤ h₂ := mul_le_mul_of_nonneg_right h12 hn1
  have hh2_le : h₂ ≤ (n : ℚ) - 1 := by
    calc h₂ ≤ 1 * ((n : ℚ) - 1) := mul_le_mul_of_nonneg_right h1 hn1
    _ = (n : ℚ) - 1 := one_mul _
  set i₁ := (⌊h₁⌋).toNat with hi1_def
  set i₂ := (⌊h₂⌋).toNat with hi2_def
  have hfl1 : (0 : ℤ) ≤ ⌊h₁⌋ := Int.floor_nonneg.mpr hh1_nonneg
  have hfl2 : (0 : ℤ) ≤ ⌊h₂⌋ := Int.floor_nonneg.mpr hh2_nonneg
  have hc1 : ((i₁ : ℕ) : ℚ) = ((⌊h₁⌋ : ℤ) : ℚ) := by
    rw [hi1_def]; exact_mod_cast Int.toNat_of_nonneg hfl1
  have hc2 : ((i₂ : ℕ) : ℚ) = ((⌊h₂⌋ : ℤ) : ℚ) := by
    rw [hi2_def]; exact_mod_cast Int.toNat_of_nonneg hfl2
  have hfloor1_le : ((i₁ : ℕ) : ℚ) ≤ h₁ := by rw [hc1]; exact Int.floor_le h₁
  have hfloor2_le : ((i₂ : ℕ) : ℚ) ≤ h₂ := by rw [hc2]; exact Int.floor_le h₂
  have hlt1 : h₁ < ((i₁ : ℕ) : ℚ) + 1 := by rw [hc1]; exact Int.lt_floor_add_one h₁
  have hlt2 : h₂ < ((i₂ : ℕ) : ℚ) + 1 := by rw [hc2]; exact Int.lt_floor_add_one h₂
  have hi2_le : i₂ ≤ n - 1 := by
    have hq : ((i₂ : ℕ) : ℚ) ≤ ((n - 1 : ℕ) : ℚ) := by
      rw [Nat.cast_sub hn]
      push_cast
      linarith [hfloor2_le, hh2_le]
    exact_mod_cast hq
  have hi12 : i₁ ≤ i₂ := Int.toNat_le_toNat (Int.floor_le_floor hh12)
  have hi1_le : i₁ ≤ n - 1 := le_trans hi12 hi2_le
  have hlohi : ∀ i : ℕ, i ≤ n - 1 → s.getD i 0 ≤ s.getD (min (i + 1) (n - 1)) 0 := by
    intro i hi
    exact sorted_getD_mono hs (by omega) (by rw [hslen]; omega)
  rcases Nat.lt_or_ge i₁ i₂ with hlt | hge
  · have hmid : s.getD (min (i₁ + 1) (n - 1)) 0 ≤ s.getD i₂ 0 :=
      sorted_getD_mono hs (by omega) (by rw [hslen]; omega)
    have t1 := mul_nonneg (show (0 : ℚ) ≤ 1 - (h₁ - ((i₁ : ℕ) : ℚ)) by linarith)
      (sub_nonneg.mpr (hlohi i₁ hi1_le))
    have t2 := mul_nonneg (show (0 : ℚ) ≤ h₂ - ((i₂ : ℕ) : ℚ) by linarith)
      (sub_nonneg.mpr (hlohi i₂ hi2_le))
    nlinarith [t1, t2, hmid]
  · have heq : i₁ = i₂ := Nat.le_antisymm hi12 hge
    rw [heq]
    have t3 := mul_nonneg (show (0 : ℚ) ≤ h₂ - h₁ by linarith)
      (sub_nonneg.mpr (hlohi i₂ hi2_le))
    nlinarith [t3]

/-- C5.  Every row of `tail_slippage_table` satisfies
`p95_slippage <= p99_slippage`, for every sampled slippage model, every list
of volatility regimes, every trade-size list and every `n_mc >= 1`. -/
theorem tail_slippage_table_p99_ge_p95 (slippage_model_func : ℚ → ℚ → ℕ → ℚ)
    (vol_regimes_annual trade_sizes : List ℚ) (n_mc : ℕ) (j : ℕ) (hmc : 1 ≤ n_mc)
    (hj : j < (tail_slippage_table slippage_model_func vol_regimes_annual trade_sizes
        n_mc).length) :
    ((tail_slippage_table slippage_model_func vol_regimes_annual trade_sizes n_mc).getD j
        default).p95_slippage ≤
      ((tail_slippage_table slippage_model_func vol_regimes_annual trade_sizes n_mc).getD j
        default).p99_slippage := by
  have hmem : (tail_slippage_table slippage_model_func vol_regimes_annual trade_sizes
      n_mc).getD j default ∈
      tail_slippage_table slippage_model_func vol_regimes_annual trade_sizes n_mc := by
    rw [List.getD_eq_getElem _ _ hj]
    exact List.getElem_mem hj
  set row := (tail_slippage_table slippage_model_func vol_regimes_annual trade_sizes
    n_mc).getD j default with hrow_def
  rw [tail_slippage_table] at hmem
  obtain ⟨sigma, _, hrow⟩ := List.mem_flatMap.mp hmem
  obtain ⟨q, _, heq⟩ := List.mem_map.mp hrow
  rw [← heq]
  have hne : ((List.range n_mc).map (slippage_model_func sigma q)) ≠ [] := by
    apply List.ne_nil_of_length_pos
    simpa using hmc
  exact quantile_le_quantile _ hne (by norm_num) (by norm_num) (by norm_num)

/-- Closed witness for C5 at a concrete model, one regime, one trade size. -/
theorem tail_slippage_table_p99_ge_p95_witness :
    ((tail_slippage_table (fun _ _ _ => 0) [1] [1] 1).getD 0
        default).p95_slippage ≤
      ((tail_slippage_table (fun _ _ _ => 0) [1] [1] 1).getD 0
        default).p99_slippage :=
  tail_slippage_table_p99_ge_p95 (fun _ _ _ => 0) [1] [1] 1 0 (by decide) (by decide)

/-- C2.  For every tick in the Uniswap v3 range, converting the tick to a
price and back recovers the tick within `±1` (the round trip is exact in
exact arithmetic; the spec's `±1` slack absorbs floating-point error). -/
theorem price_tick_round_trip (t : ℤ) (hlo : -887272 ≤ t) (hhi : t ≤ 887272) :
    ∃ t' : ℤ, price_to_tick ((tick_to_price t : ℚ) : ℝ) = some t' ∧ |t' - t| ≤ 1 := by
  have hbase : ((tick_to_price t : ℚ) : ℝ) = (1.0001 : ℝ) ^ t := by
    rw [tick_to_price]
    push_cast
    norm_num
  have hpos : (0 : ℝ) < (1.0001 : ℝ) ^ t := zpow_pos (by norm_num) t
  have hlogne : Real.log 1.0001 ≠ 0 :=
    Real.log_ne_zero_of_pos_of_ne_one (by norm_num) (by norm_num)
  refine ⟨t, ?_, by simp⟩
  rw [price_to_tick, hbase, if_neg (not_le.mpr hpos)]
  have hlog : Real.log ((1.0001 : ℝ) ^ t) / Real.log 1.0001 = (t : ℝ) := by
    rw [Real.log_zpow, mul_div_assoc, div_self hlogne, mul_one]
  rw [hlog, round_intCast]

/-- Closed witness for C2 at tick 3. -/
theorem price_tick_round_trip_witness :
    ∃ t' : ℤ, price_to_tick ((tick_to_price 3 : ℚ) : ℝ) = some t' ∧ |t' - 3| ≤ 1 :=
  price_tick_round_trip 3 (by decide) (by decide)

/-- C8.  `price_to_tick` raises `ValueError` (here: returns `none`) exactly
on non-positive prices, and on every positive price it returns the rounded
base-1.0001 logarithm without raising. -/
theorem price_to_tick_error_iff (p : ℝ) :
    (price_to_tick p = none ↔ p ≤ 0)
    ∧ (0 < p → price_to_tick p = some (round (Real.log p / Real.log 1.0001))) := by
  refine ⟨⟨fun h => ?_, fun hp => ?_⟩, fun hp => ?_⟩
  · by_contra hp
    rw [price_to_tick, if_neg hp] at h
    exact Option.some_ne_none _ h
  · rw [price_to_tick, if_pos hp]
  · rw [price_to_tick, if_neg (not_le.mpr hp)]

/-- Closed witness for C8 at the positive price 1. -/
theorem price_to_tick_error_iff_witness :
    price_to_tick 1 = some (round (Real.log 1 / Real.log 1.0001)) :=
  (price_to_tick_error_iff 1).2 (by norm_num)

lemma getD_range {n i : ℕ} (h : i < n) : (List.range n).getD i 0 = i := by
  rw [List.getD_eq_getElem _ _ (by simpa using h)]
  exact List.getElem_range _ _

lemma getD_scanl_add (xs : List ℝ) (a : ℝ) (j : ℕ) (hj : j ≤ xs.length) :
    (List.scanl (· + ·) a xs).getD j 0 = a + (xs.take j).sum := by
  induction xs generalizing a j with
  | nil =>
    have hj0 : j = 0 := Nat.le_zero.mp hj
    subst hj0
    simp [List.scanl_nil]
  | cons x t ih =>
    cases j with
    | zero => simp [List.scanl_cons]
    | succ k =>
      have hk : k ≤ t.length := by simpa using hj
      rw [List.scanl_cons]
      simp only [List.singleton_append, List.getD_cons_succ]
      rw [ih (a + x) k hk, List.take_succ_cons]
      simp
      ring

lemma gbm_length (normal : ℕ → ℕ → ℕ → ℝ) (price0 sigma_annual : ℝ)
    (horizon_days steps_per_day n_paths seed : ℕ) :
    (simulate_price_paths_gbm normal price0 sigma_annual horizon_days steps_per_day
      n_paths seed).length = n_paths := by
  simp [simulate_price_paths_gbm]

lemma gbm_row (normal : ℕ → ℕ → ℕ → ℝ) (price0 sigma_annual : ℝ)
    (horizon_days steps_per_day n_paths seed : ℕ) {i : ℕ} (hi : i < n_paths) :
    (simulate_price_paths_gbm normal price0 sigma_annual horizon_days steps_per_day
        n_paths seed).getD i [] =
      (List.scanl (· + ·) 0 ((List.range (horizon_days * steps_per_day)).map fun k =>
          sigma_annual * Real.sqrt (1 / (365 * (steps_per_day : ℝ))) * normal seed i k)).map
        fun x => price0 * Real.exp x := by
  rw [simulate_price_paths_gbm]
  rw [getD_map_lt _ _ (by simpa using hi) _ 0, getD_range hi]

/-- C3.  `simulate_price_paths_gbm` returns `n_paths` rows of
`horizon_days*steps_per_day + 1` entries each; every row starts at `price0`,
entry `j` equals `price0` times the exponential of the cumulative sum of the
first `j` draws scaled by `sigma_annual * sqrt(dt)` with
`dt = 1/(365*steps_per_day)`, and the output is identical across two calls
with identical arguments (the seeded generator is deterministic). -/
theorem simulate_price_paths_gbm_spec (normal : ℕ → ℕ → ℕ → ℝ)
    (price0 sigma_annual : ℝ) (horizon_days steps_per_day n_paths seed : ℕ)
    (hp : 0 < price0) (hsteps : 1 ≤ steps_per_day) (hpaths : 1 ≤ n_paths) :
    (simulate_price_paths_gbm normal price0 sigma_annual horizon_days steps_per_day
        n_paths seed).length = n_paths
    ∧ (∀ i < n_paths,
        ((simulate_price_paths_gbm normal price0 sigma_annual horizon_days steps_per_day
            n_paths seed).getD i []).length = horizon_days * steps_per_day + 1)
    ∧ (∀ i < n_paths,
        ((simulate_price_paths_gbm normal price0 sigma_annual horizon_days steps_per_day
            n_paths seed).getD i []).getD 0 0 = price0)
    ∧ (∀ i < n_paths, ∀ j ≤ horizon_days * steps_per_day,
        ((simulate_price_paths_gbm normal price0 sigma_annual horizon_days steps_per_day
            n_paths seed).getD i []).getD j 0 =
          price0 * Real.exp (((List.range j).map fun k =>
            sigma_annual * Real.sqrt (1 / (365 * (steps_per_day : ℝ))) *
              normal seed i k).sum))
    ∧ simulate_price_paths_gbm normal price0 sigma_annual horizon_days steps_per_day
          n_paths seed =
        simulate_price_paths_gbm normal price0 sigma_annual horizon_days steps_per_day
          n_paths seed := by
  have hentry : ∀ i < n_paths, ∀ j ≤ horizon_days * steps_per_day,
      ((simulate_price_paths_gbm normal price0 sigma_annual horizon_days steps_per_day
          n_paths seed).getD i []).getD j 0 =
        price0 * Real.exp (((List.range j).map fun k =>
          sigma_annual * Real.sqrt (1 / (365 * (steps_per_day : ℝ))) *
            normal seed i k).sum) := by
    intro i hi j hj
    rw [gbm_row normal price0 sigma_annual horizon_days steps_per_day n_paths seed hi]
    have hlen : j < (List.scanl (· + ·) (0 : ℝ)
        ((List.range (horizon_days * steps_per_day)).map fun k =>
          sigma_annual * Real.sqrt (1 / (365 * (steps_per_day : ℝ))) *
            normal seed i k)).length := by
      rw [List.length_scanl, List.length_map, List.length_range]
      omega
    rw [getD_map_lt _ _ hlen _ 0,
      getD_scanl_add _ _ _ (by rw [List.length_map, List.length_range]; exact hj),
      zero_add, ← List.map_take, List.take_range, Nat.min_eq_left hj]
  refine ⟨gbm_length _ _ _ _ _ _ _, ?_, ?_, hentry, rfl⟩
  · intro i hi
    rw [gbm_row normal price0 sigma_annual horizon_days steps_per_day n_paths seed hi]
    simp [List.length_scanl]
  · intro i hi
    have := hentry i hi 0 (Nat.zero_le _)
    simpa using this

/-- Closed witness for C3 at concrete arguments (zero draws, one path). -/
theorem simulate_price_paths_gbm_spec_witness :
    (simulate_price_paths_gbm (fun _ _ _ => 0) 1 0 1 1 1 42).length = 1 :=
  (simulate_price_paths_gbm_spec (fun _ _ _ => 0) 1 0 1 1 1 42 (by norm_num)
    (by decide) (by decide)).1

/-- C10.  Every entry of every simulated GBM path is strictly positive when
`price0 > 0`: each entry is `price0` times an exponential. -/
theorem simulate_price_paths_gbm_pos (normal : ℕ → ℕ → ℕ → ℝ)
    (price0 sigma_annual : ℝ) (horizon_days steps_per_day n_paths seed : ℕ)
    (hp : 0 < price0) (i j : ℕ)
    (hi : i < (simulate_price_paths_gbm normal price0 sigma_annual horizon_days
        steps_per_day n_paths seed).length)
    (hj : j < ((simulate_price_paths_gbm normal price0 sigma_annual horizon_days
        steps_per_day n_paths seed).getD i []).length) :
    0 < ((simulate_price_paths_gbm normal price0 sigma_annual horizon_days
        steps_per_day n_paths seed).getD i []).getD j 0 := by
  rw [gbm_length] at hi
  rw [gbm_row normal price0 sigma_annual horizon_days steps_per_day n_paths seed hi] at hj ⊢
  have hj' : j < (List.scanl (· + ·) (0 : ℝ)
      ((List.range (horizon_days * steps_per_day)).map fun k =>
        sigma_annual * Real.sqrt (1 / (365 * (steps_per_day : ℝ))) *
          normal seed i k)).length := by
    simpa using hj
  rw [getD_map_lt _ _ hj' _ 0]
  exact mul_pos hp (Real.exp_pos _)

/-- Closed witness for C10 at concrete arguments and indices. -/
theorem simulate_price_paths_gbm_pos_witness :
    0 < ((simulate_price_paths_gbm (fun _ _ _ => 0) 1 0 1 1 1 42).getD 0 []).getD 0 0 :=
  simulate_price_paths_gbm_pos (fun _ _ _ => 0) 1 0 1 1 1 42 (by norm_num) 0 0
    (by rw [gbm_length]; norm_num)
    (by
      rw [gbm_row (fun _ _ _ => 0) 1 0 1 1 1 42 (by norm_num)]
      simp [List.length_scanl])

/-- C9.  `UniV3Snapshot.validate` raises `ValueError` exactly when the ticks
dataframe is missing the `tick` or `liquidity_net` column or one of those two
columns contains a `NaN` cell; `load_snapshot` runs `validate` on every
snapshot before returning it, so every successfully loaded snapshot passes
`validate` and therefore has both required columns free of `NaN`. -/
theorem snapshot_validate_iff_load (snap : UniV3Snapshot) (meta : Option SnapshotMeta)
    (tdf : Option TicksDF) (snap' : UniV3Snapshot)
    (hload : load_snapshot meta tdf = Except.ok snap') :
    ((∃ e, snap.validate = Except.error e) ↔
        ¬ ("tick" ∈ snap.ticks.names ∧ "liquidity_net" ∈ snap.ticks.names ∧
           (∀ v ∈ snap.ticks.col "tick", v ≠ none) ∧
           (∀ v ∈ snap.ticks.col "liquidity_net", v ≠ none)))
    ∧ snap'.validate = Except.ok () := by
  have hvalid : ∀ s : UniV3Snapshot,
      (∃ e, s.validate = Except.error e) ↔
        ¬ ("tick" ∈ s.ticks.names ∧ "liquidity_net" ∈ s.ticks.names ∧
           (∀ v ∈ s.ticks.col "tick", v ≠ none) ∧
           (∀ v ∈ s.ticks.col "liquidity_net", v ≠ none)) := by
    intro s
    rw [UniV3Snapshot.validate]
    split_ifs with hmiss htick hliq
    · rw [Bool.not_eq_true'] at hmiss
      constructor
      · intro _
        rcases Bool.and_eq_false_iff.mp hmiss with h | h
        · intro hc
          have hmem := hc.1
          rw [← List.elem_iff] at hmem
          have h' : List.elem "tick" s.ticks.names = false := h
          rw [h'] at hmem
          exact Bool.false_ne_true hmem
        · intro hc
          have hmem := hc.2.1
          rw [← List.elem_iff] at hmem
          have h' : List.elem "liquidity_net" s.ticks.names = false := h
          rw [h'] at hmem
          exact Bool.false_ne_true hmem
      · intro _
        exact ⟨_, rfl⟩
    · constructor
      · intro _
        obtain ⟨v, hv, hvnone⟩ := List.any_eq_true.mp htick
        intro hc
        exact hc.2.2.1 v hv (Option.isNone_iff_eq_none.mp hvnone)
      · intro _
        exact ⟨_, rfl⟩
    · constructor
      · intro _
        obtain ⟨v, hv, hvnone⟩ := List.any_eq_true.mp hliq
        intro hc
        exact hc.2.2.2 v hv (Option.isNone_iff_eq_none.mp hvnone)
      · intro _
        exact ⟨_, rfl⟩
    · rw [Bool.not_eq_true', Bool.not_eq_false] at hmiss
      have hmem : s.ticks.names.contains "tick" = true ∧
          s.ticks.names.contains "liquidity_net" = true := by simpa using hmiss
      constructor
      · rintro ⟨e, he⟩
        exact absurd he (by simp)
      · intro hc
        exfalso
        apply hc
        refine ⟨List.elem_iff.mp hmem.1, List.elem_iff.mp hmem.2, ?_, ?_⟩
        · intro v hv
          intro hvp
          exact htick (List.any_eq_true.mpr ⟨v, hv, by simp [hvp]⟩)
        · intro v hv
          intro hvp
          exact hliq (List.any_eq_true.mpr ⟨v, hv, by simp [hvp]⟩)
  refine ⟨hvalid snap, ?_⟩
  rw [load_snapshot.eq_def] at hload
  cases meta with
  | none => exact absurd hload (by simp)
  | some m =>
    cases tdf with
    | none => exact absurd hload (by simp)
    | some t =>
      simp only at hload
      set s0 : UniV3Snapshot :=
        { pool_name := m.pool_name, fee_tier := m.fee_tier,
          timestamp_utc := m.timestamp_utc, current_tick := m.current_tick,
          current_price := m.current_price, ticks := t } with hs0
      cases hval : s0.validate with
      | error e =>
        rw [hval] at hload
        exact absurd hload (by simp)
      | ok u =>
        rw [hval] at hload
        simp only [Except.ok.injEq] at hload
        subst hload
        cases u
        exact hval

/-- Closed witness for C9: a concrete well-formed snapshot loads and then
passes `validate`. -/
theorem snapshot_validate_iff_load_witness :
    (({ pool_name := "", fee_tier := "", timestamp_utc := "", current_tick := 0,
        current_price := 0,
        ticks := ⟨[("tick", [some 0]), ("liquidity_net", [some 1])]⟩ } :
        UniV3Snapshot)).validate = Except.ok () :=
  (snapshot_validate_iff_load default (some default)
    (some ⟨[("tick", [some 0]), ("liquidity_net", [some 1])]⟩)
    { pool_name := "", fee_tier := "", timestamp_utc := "", current_tick := 0,
      current_price := 0,
      ticks := ⟨[("tick", [some 0]), ("liquidity_net", [some 1])]⟩ }
    (by rfl)).2

end RiskEngine
